import Mathlib

/-!
Shallow embedding of the BigCommerce product-metafields helper
(`src/lib/utils.ts`, `src/lib/types.ts`, `src/actions/create-metafields.ts`,
`src/actions/delete-metafields.ts`) together with proofs about the claims
of the specification.

JavaScript primitives (`String.prototype.trim`, `String.prototype.split`,
`Array.prototype.slice`, `parseInt`, truthiness of numbers and of optional
values) are modelled explicitly below so every definition is executable.
Strings are modelled over their character lists; the models cover the ASCII
behaviour of the JS primitives (Unicode-specific whitespace classes, the
hexadecimal form of `parseInt`, and non-ASCII case mapping are outside the
inputs this repository manipulates and are not modelled).
-/

/-! ## JavaScript primitive models -/

/-- ASCII whitespace recognised by the model of `String.prototype.trim` and
of the leading-whitespace skipping of `parseInt`. -/
def isJsSpace (c : Char) : Bool :=
  c = ' ' || c = '\t' || c = '\n' || c = '\r' || c = '\x0b' || c = '\x0c'

/-- Model of `String.prototype.trim`: remove leading and trailing whitespace. -/
def jsTrim (s : String) : String :=
  ⟨((s.data.dropWhile isJsSpace).reverse.dropWhile isJsSpace).reverse⟩

/-- Splitting a character list at every occurrence of a separator character;
the empty list yields `[[]]`, matching JS `"".split(sep) = [""]`. -/
def splitChar (sep : Char) : List Char → List (List Char)
  | [] => [[]]
  | c :: cs =>
    if c = sep then [] :: splitChar sep cs
    else
      match splitChar sep cs with
      | [] => [[c]]
      | g :: gs => (c :: g) :: gs

/-- Model of `String.prototype.split` with a one-character separator. -/
def jsSplit (sep : Char) (s : String) : List String :=
  (splitChar sep s.data).map (fun cs => ⟨cs⟩)

/-- Model of `Array.prototype.slice(start, stop)` with the ECMAScript clamping
of negative and out-of-range indices. -/
def jsSlice {α : Type} (l : List α) (start stop : Int) : List α :=
  let len : Int := l.length
  let s := if start < 0 then max (len + start) 0 else min start len
  let e := if stop < 0 then max (len + stop) 0 else min stop len
  (l.take e.toNat).drop s.toNat

/-- Model of `Array.prototype.slice(start)` (second argument `undefined`). -/
def jsSliceToEnd {α : Type} (l : List α) (start : Int) : List α :=
  jsSlice l start l.length

/-- Numeric value of a decimal digit prefix. -/
def digitsToNat (ds : List Char) : Nat :=
  ds.foldl (fun acc c => acc * 10 + (c.toNat - 48)) 0

/-- Model of JS `parseInt(s)` (radix 10): skip leading whitespace, read an
optional sign and then the longest decimal-digit prefix; `none` models `NaN`.
The hexadecimal `0x` prefix form of `parseInt` is not modelled. -/
def jsParseInt (s : String) : Option Int :=
  let cs := s.data.dropWhile isJsSpace
  match cs with
  | '-' :: rest =>
    let ds := rest.takeWhile Char.isDigit
    if ds = [] then none else some (-(digitsToNat ds : Int))
  | '+' :: rest =>
    let ds := rest.takeWhile Char.isDigit
    if ds = [] then none else some (digitsToNat ds : Int)
  | _ =>
    let ds := cs.takeWhile Char.isDigit
    if ds = [] then none else some (digitsToNat ds : Int)

/-- Model of `s.endsWith(suffix)`. -/
def jsEndsWith (s suf : String) : Bool :=
  suf.data.isSuffixOf s.data

/-- Model of the JS idiom `x || d` on an optional number: `undefined`/`NaN`
(modelled as `none`) and `0` are falsy and give the default. -/
def jsOrDefault (o : Option Int) (d : Int) : Int :=
  match o with
  | none => d
  | some n => if n = 0 then d else n

/-! ## lib/utils.ts -/

/-- A parsed CSV row: the entries of the JS row object in iteration order
(column name, raw string value). -/
abbrev Row := List (String × String)

/-- Model of the JS property read `row[k]`: `none` models `undefined`. -/
def jsLookup (row : Row) (k : String) : Option String :=
  (row.find? (fun e => e.1 == k)).map Prod.snd

/-- The metafield record built by `transformToMetafields`
(src/lib/utils.ts lines 36–44). -/
structure Metafield where
  resource_type : String
  resource_id : Int
  «namespace» : String
  key : String
  value : String
  description : String
  permission_set : String
deriving DecidableEq, Repr

/-- The reserved column names (`const skipColumns = ["id", "sku"]`). -/
def skipColumns : List String := ["id", "sku"]

/-- Model of the arktype header schema
`type.string.narrow((s) => !skipColumns.includes(s))`. -/
def allowsHeader (k : String) : Bool :=
  !skipColumns.contains k

/-- Model of the arktype value schema
`type("string.trim.preformatted").moreThanLength(0)`: the string must already
equal its trimmed form (`preformatted`) and have positive length. -/
def allowsValue (v : String) : Bool :=
  (jsTrim v == v) && (v != "")

/-- Model of `const sku = row.sku || ` followed by the template
`product_<productId>`: the `sku` cell when present and non-empty (the only
falsy string is the empty one), otherwise the synthesized fallback. -/
def skuOf (row : Row) (productId : Int) : String :=
  match jsLookup row "sku" with
  | some s => if s == "" then "product_" ++ toString productId else s
  | none => "product_" ++ toString productId

/-- Model of `word.charAt(0).toUpperCase() + word.slice(1)` (ASCII case map). -/
def capitalizeWord (w : String) : String :=
  match w.data with
  | [] => ""
  | c :: cs => ⟨c.toUpper :: cs⟩

/-- Model of `transformToMetafields` (src/lib/utils.ts lines 14–46): filter the
row entries through the header/value schemas, then build one record per
surviving column.  `key.split(".")` is destructured into the namespace (first
part) and the remaining parts rejoined with `"."`. -/
def transformToMetafields (row : Row) (productId : Int) : List Metafield :=
  let sku := skuOf row productId
  (row.filter (fun e => allowsHeader e.1 && allowsValue e.2)).map (fun e =>
    let parts := jsSplit '.' e.1
    let ns := parts.headD ""
    let metafieldKey := String.intercalate "." parts.tail
    let formattedKey :=
      String.intercalate " " ((jsSplit '_' metafieldKey).map capitalizeWord)
    { resource_type := "product"
      resource_id := productId
      «namespace» := ns
      key := metafieldKey
      value := e.2
      description := formattedKey ++ " for " ++ sku
      permission_set := "write_and_sf_access" })

/-- Model of the loop body of `chunk` (src/lib/utils.ts lines 48–54):
`for (let i = 0; i < array.length; i += size) chunks.push(array.slice(i, i + size))`.
The JS loop has no fuel; the `fuel` argument only bounds how many iterations
the model unfolds, and `none` means the loop did not finish within `fuel`
iterations.  A result `some cs` is independent of any sufficiently large
fuel, and for `size ≤ 0` on a non-empty array no fuel is sufficient: the
source loop never terminates there. -/
def chunkLoop {α : Type} (l : List α) (size : Int) : Int → Nat → Option (List (List α))
  | i, 0 => if i < (l.length : Int) then none else some []
  | i, fuel + 1 =>
    if i < (l.length : Int) then
      (chunkLoop l size (i + size) fuel).map (fun cs => jsSlice l i (i + size) :: cs)
    else some []

/-- Model of `chunk(array, size)`: run the loop from `i = 0` with fuel
`array.length`, which is enough iterations for every positive `size`. -/
def chunk {α : Type} (l : List α) (size : Int) : Option (List (List α)) :=
  chunkLoop l size 0 l.length

/-! ## create-metafields.ts -/

/-- The create-command options after commander parsing and the defaulting at
src/actions/create-metafields.ts lines 48–59 (`ProgramOptions` in
src/lib/types.ts).  `hasClient` models `options.accessToken && options.storeHash`
being supplied, which is exactly when `main` passes a client to
`processAllFiles`.  Numeric options are `none` when absent or `NaN`. -/
structure CreateOptions where
  dryRun : Bool
  hasClient : Bool
  skip : Option Int
  limit : Option Int
  batchSize : Option Int
deriving DecidableEq, Repr

/-- The mutable counters of `processAllFiles` (lines 120–123) together with
the sequence of create submissions issued so far: `calls` lists, in order,
the body of every `client.v3.post("/catalog/products/metafields", ...)`. -/
structure CState where
  totalProducts : Nat
  totalMetafields : Nat
  successCount : Nat
  errorCount : Nat
  calls : List (List Metafield)
deriving DecidableEq, Repr

/-- The state at the start of a run. -/
def initState : CState := ⟨0, 0, 0, 0, []⟩

/-- Lexicographic comparison of character lists by code point, the order JS
`Array.prototype.sort` uses on strings (UTF-16 code units; identical for the
ASCII file names at hand). -/
def lexLe : List Char → List Char → Bool
  | [], _ => true
  | _ :: _, [] => false
  | a :: as, b :: bs =>
    if a.toNat < b.toNat then true
    else if b.toNat < a.toNat then false
    else lexLe as bs

/-- Lexicographic string comparison. -/
def strLe (a b : String) : Bool :=
  lexLe a.data b.data

instance strLeDecidableRel : DecidableRel (fun a b : String => strLe a b = true) :=
  fun a b => inferInstanceAs (Decidable (strLe a b = true))

/-- Model of `files.filter((file) => file.endsWith(".csv")).sort()`: JS
`Array.prototype.sort` without comparator sorts strings lexicographically and
stably; insertion sort is such a sort. -/
def sortFiles (l : List String) : List String :=
  List.insertionSort (fun a b => strLe a b = true) l

/-- Model of the file-selection logic shared by `readCSVFiles` (lines 61–69)
and `processAllFiles` (lines 109–116):
`csvFiles.slice(skipCount, options.limit ? skipCount + options.limit : undefined)`
with `const skipCount = options.skip || 0`.  A `limit` of `0` (or `NaN`,
modelled as `none`) is falsy, so the slice end is `undefined`. -/
def selectCsvFiles (files : List String) (skip limit : Option Int) : List String :=
  let csvFiles := sortFiles (files.filter (fun f => jsEndsWith f ".csv"))
  let skipCount : Int := jsOrDefault skip 0
  match limit with
  | some n =>
    if n = 0 then jsSliceToEnd csvFiles skipCount
    else jsSlice csvFiles skipCount (skipCount + n)
  | none => jsSliceToEnd csvFiles skipCount

/-- Model of the per-row submission loop inside the `try` block (lines
145–158): `for (let i = 0; i < metafields.length; i += batchSize)` posting
`metafields.slice(i, i + batchSize)`.  `ok callIdx` tells whether the
`callIdx`-th network call of the whole run succeeds; a failing call throws,
aborting the loop (the `catch` sits outside it).  The result is
`(calls issued by this row, successes gained, whether an error was thrown)`;
`none` means the loop did not finish within `fuel` iterations (only possible
for `size ≤ 0`, where the source loop never terminates). -/
def createBatchLoop (ok : Nat → Bool) (mfs : List Metafield) (size : Int) :
    Int → Nat → Nat → Option (List (List Metafield) × Nat × Bool)
  | i, _, 0 => if i < (mfs.length : Int) then none else some ([], 0, false)
  | i, callIdx, fuel + 1 =>
    if i < (mfs.length : Int) then
      let batch := jsSlice mfs i (i + size)
      if ok callIdx then
        match createBatchLoop ok mfs size (i + size) (callIdx + 1) fuel with
        | none => none
        | some (cs, s, t) => some (batch :: cs, batch.length + s, t)
      else some ([batch], 0, true)
    else some ([], 0, false)

/-- Model of the body of `for (const row of data)` (lines 136–170): parse the
id (`if (!productId) continue`), transform, bump the totals, and — only when
not in dry-run with a client and a non-empty transform — submit the batches,
catching a thrown submission error at the row level (`errorCount++`). -/
def processRow (opts : CreateOptions) (ok : Nat → Bool) (st : CState) (row : Row) :
    Option CState :=
  match (jsLookup row "id").bind jsParseInt with
  | none => some st
  | some productId =>
    if productId = 0 then some st
    else
      let metafields := transformToMetafields row productId
      let st := { st with
        totalProducts := st.totalProducts + 1
        totalMetafields := st.totalMetafields + metafields.length }
      if !opts.dryRun && opts.hasClient && decide (0 < metafields.length) then
        match createBatchLoop ok metafields (jsOrDefault opts.batchSize 50) 0
            st.calls.length metafields.length with
        | none => none
        | some (cs, s, threw) =>
          some { st with
            calls := st.calls ++ cs
            successCount := st.successCount + s
            errorCount := st.errorCount + (if threw then 1 else 0) }
      else some st

/-- The rows of one file, processed in order. -/
def processRows (opts : CreateOptions) (ok : Nat → Bool) :
    CState → List Row → Option CState
  | st, [] => some st
  | st, r :: rs =>
    match processRow opts ok st r with
    | none => none
    | some st' => processRows opts ok st' rs

/-- The data directory: file names paired with the rows `parseCSVFile`
produces for them (the CSV loader itself is an external collaborator). -/
structure FileSys where
  files : List (String × List Row)
deriving Repr

/-- The names returned by `fs.readdir(dataDir)`. -/
def fileNames (fs : FileSys) : List String :=
  fs.files.map Prod.fst

/-- The parsed rows of one file. -/
def readRows (fs : FileSys) (name : String) : List Row :=
  ((fs.files.find? (fun e => e.1 == name)).map Prod.snd).getD []

/-- The files of the run, processed in order. -/
def processFiles (fs : FileSys) (opts : CreateOptions) (ok : Nat → Bool) :
    CState → List String → Option CState
  | st, [] => some st
  | st, f :: rest =>
    match processRows opts ok st (readRows fs f) with
    | none => none
    | some st' => processFiles fs opts ok st' rest

/-- Model of `processAllFiles` (lines 108–183): select the CSV files, then
process each file's rows in order. -/
def processAllFiles (fs : FileSys) (opts : CreateOptions) (ok : Nat → Bool) :
    Option CState :=
  processFiles fs opts ok initState (selectCsvFiles (fileNames fs) opts.skip opts.limit)

/-! ## delete-metafields.ts -/

/-- The delete-command options (`DeleteOptions` in src/lib/types.ts lines
10–15) after commander parsing and the dry-run defaulting at lines 72–74.
List-valued options are `none` when the flag was not supplied (commander only
sets them to non-empty arrays, and any array is truthy). -/
structure DeleteOptions where
  accessToken : Option String
  storeHash : Option String
  dryRun : Bool
  key : Option (List String)
  «namespace» : Option (List String)
  productId : Option (List Int)
  batchSize : Option Int
  limit : Option Int
  all : Option Bool
deriving DecidableEq, Repr

/-- A metafield as validated by `productMetafieldSchema`
(src/actions/delete-metafields.ts lines 8–14). -/
structure ProductMetafield where
  id : Int
  resource_id : Int
  key : String
  «namespace» : String
  value : String
deriving DecidableEq, Repr

/-- Model of the guard at lines 83–92:
`if (!options.key && !options.namespace && !options.productId)` — the process
exits with status 1 when no deletion criterion was supplied.  Note the check
never consults `options.all`. -/
def deleteCriteriaMissing (o : DeleteOptions) : Bool :=
  o.key == none && o.«namespace» == none && o.productId == none

/-- Model of the loop of `deleteMetafields` (lines 154–172): one delete call
per batch (the call sends `batch.map((metafield) => metafield.id)`), each call
individually wrapped in `try`/`catch`, so every batch is attempted whatever
happened before.  Returns the delete-call bodies in order together with the
`success` and `failed` counters. -/
def deleteBatchesRun (ok : Nat → Bool) :
    List (List ProductMetafield) → Nat → List (List Int) × Nat × Nat
  | [], _ => ([], 0, 0)
  | b :: bs, callIdx =>
    let rest := deleteBatchesRun ok bs (callIdx + 1)
    (b.map (fun m => m.id) :: rest.1,
     (if ok callIdx then b.length else 0) + rest.2.1,
     (if ok callIdx then 0 else b.length) + rest.2.2)

/-- Model of `deleteMetafields` (lines 145–175): chunk the metafields and run
the per-batch loop; `none` propagates the non-termination of `chunk` for a
non-positive batch size. -/
def deleteMetafields (ok : Nat → Bool) (mfs : List ProductMetafield) (batchSize : Int) :
    Option (List (List Int) × Nat × Nat) :=
  (chunk mfs batchSize).map (fun bs => deleteBatchesRun ok bs 0)

/-- The observable outcome of one delete-command run. -/
structure DeleteRun where
  configError : Bool
  fetchPerformed : Bool
  deleteCalls : List (List Int)
  success : Nat
  failed : Nat
deriving DecidableEq, Repr

/-- Constructs the outcome of a run that exited on a configuration error
before fetching anything. -/
def deleteExit : DeleteRun := ⟨true, false, [], 0, 0⟩

/-- Model of the delete command's control flow around `main` (lines 70–283):
the credential guard (lines 76–81), the criteria guard (lines 83–92), the
`if (!client) process.exit(1)` guard (lines 212–215), then the fetch
(external; its already-validated result is the `fetched` argument), and
finally either the dry-run preview (no delete calls) or `deleteMetafields`.
`ok` tells which delete calls succeed. -/
def deleteMain (o : DeleteOptions) (fetched : List ProductMetafield) (ok : Nat → Bool) :
    Option DeleteRun :=
  if !o.dryRun && (o.accessToken == none || o.storeHash == none) then some deleteExit
  else if deleteCriteriaMissing o then some deleteExit
  else if o.accessToken == none || o.storeHash == none then some deleteExit
  else if o.dryRun then some ⟨false, true, [], 0, 0⟩
  else
    match deleteMetafields ok fetched (jsOrDefault o.batchSize 50) with
    | none => none
    | some (cs, s, f) => some ⟨false, true, cs, s, f⟩

/-! ## Claim-side counting functions -/

/-- Count written from claim C3's words: columns other than `id` and `sku`
whose value has a non-empty trimmed form. -/
def nonEmptyTrimmedCount (row : Row) : Nat :=
  (row.filter (fun e => !(e.1 == "id") && !(e.1 == "sku") && jsTrim e.2 != "")).length

/-- Count written from the amended claim C3: columns other than `id` and
`sku` whose value is non-empty and equal to its own trimmed form. -/
def trimmedEligibleCount (row : Row) : Nat :=
  (row.filter (fun e =>
    !(e.1 == "id") && !(e.1 == "sku") && (jsTrim e.2 == e.2) && (e.2 != ""))).length

/-- Divergence of the chunk loop: no iteration bound lets it finish. -/
def chunkDiverges {α : Type} (l : List α) (size : Int) : Prop :=
  ∀ fuel : Nat, chunkLoop l size 0 fuel = none

/-- A row whose `id` survives `if (!productId) continue`. -/
def rowHasTruthyId (r : Row) : Bool :=
  match (jsLookup r "id").bind jsParseInt with
  | none => false
  | some p => p != 0

/-- The number of rows the create pipeline submits records for. -/
def countValidRows (rows : List Row) : Nat :=
  (rows.filter rowHasTruthyId).length

/-! ## Helper lemmas -/

lemma splitChar_of_not_mem (sep : Char) {cs : List Char} (h : sep ∉ cs) :
    splitChar sep cs = [cs] := by
  induction cs with
  | nil => rfl
  | cons c cs ih =>
    have hc : ¬ c = sep := fun hcs => h (hcs ▸ List.mem_cons_self c cs)
    have hrest : sep ∉ cs := fun hm => h (List.mem_cons_of_mem c hm)
    simp only [splitChar, if_neg hc, ih hrest]

lemma jsSplit_of_not_mem (sep : Char) (s : String) (h : sep ∉ s.data) :
    jsSplit sep s = [s] := by
  unfold jsSplit
  rw [splitChar_of_not_mem sep h]
  rfl

lemma empty_append_str (s : String) : "" ++ s = s := by
  cases s
  rfl

/-! ## Claim C10 -/

/-- Claim C10 (confirmed): transforming the README example row with product id
123 yields exactly 3 records, the first of which has namespace `namespace_1`,
key `key_1`, value `Value 11` and description `Key 1 for SKU0001`. -/
theorem c10_example_row :
    (transformToMetafields
        [("id", "123"), ("sku", "SKU0001"), ("namespace_1.key_1", "Value 11"),
         ("namespace_1.key_2", "Value 21"), ("namespace_2.key_1", "Value 31")] 123).length = 3 ∧
    (transformToMetafields
        [("id", "123"), ("sku", "SKU0001"), ("namespace_1.key_1", "Value 11"),
         ("namespace_1.key_2", "Value 21"), ("namespace_2.key_1", "Value 31")] 123).head? =
      some { resource_type := "product", resource_id := 123, «namespace» := "namespace_1",
             key := "key_1", value := "Value 11", description := "Key 1 for SKU0001",
             permission_set := "write_and_sf_access" } := by
  decide

/-! ## Claim C1 -/

/-- Claim C1 counterexample: the row `{id: "7", foo: "x"}` has the dotless,
non-reserved column `foo`, yet `transformToMetafields` emits a record for it
(with the whole column name as namespace and the empty string as key), so
dotless columns are not excluded. -/
theorem c1_counterexample :
    ("foo".data.contains '.') = false ∧
    transformToMetafields [("id", "7"), ("foo", "x")] 7 =
      [{ resource_type := "product", resource_id := 7, «namespace» := "foo", key := "",
         value := "x", description := " for product_7",
         permission_set := "write_and_sf_access" }] := by
  decide

/-- Claim C1 (corrected): the transformer never tests column names for a dot;
a dotless non-reserved column whose value passes the value schema yields a
record whose namespace is the whole column name and whose key is empty. -/
theorem c1_dotless_column (row : Row) (productId : Int) (k v : String)
    (hmem : (k, v) ∈ row) (hdot : '.' ∉ k.data)
    (hh : allowsHeader k = true) (hv : allowsValue v = true) :
    { resource_type := "product", resource_id := productId, «namespace» := k, key := "",
      value := v, description := " for " ++ skuOf row productId,
      permission_set := "write_and_sf_access" } ∈ transformToMetafields row productId := by
  unfold transformToMetafields
  refine List.mem_map.mpr ⟨(k, v), List.mem_filter.mpr ⟨hmem, ?_⟩, ?_⟩
  · simp [hh, hv]
  · simp only [jsSplit_of_not_mem '.' k hdot]
    rw [show (String.intercalate "." [k].tail) = "" from rfl]
    rw [show String.intercalate " " ((jsSplit '_' "").map capitalizeWord) = "" from rfl]
    rw [empty_append_str]
    rfl

/-- Witness for claim C1's theorem at the concrete counterexample row. -/
theorem c1_witness :
    { resource_type := "product", resource_id := (7 : Int), «namespace» := "foo", key := "",
      value := "x", description := " for product_7",
      permission_set := "write_and_sf_access" } ∈
      transformToMetafields [("id", "7"), ("foo", "x")] 7 := by
  have h := c1_dotless_column [("id", "7"), ("foo", "x")] 7 "foo" "x"
    (by decide) (by decide) (by decide) (by decide)
  simpa using h

/-! ## Claim C3 -/

/-- Claim C3 counterexample: the column `a.b` of the row `{id: "1", a.b: " x "}`
has the non-empty trimmed value `x`, yet no record is emitted for it, because
the arktype value schema requires the raw value to be preformatted (already
trimmed). -/
theorem c3_counterexample :
    nonEmptyTrimmedCount [("id", "1"), ("a.b", " x ")] = 1 ∧
    (transformToMetafields [("id", "1"), ("a.b", " x ")] 1).length = 0 := by
  decide

/-- Claim C3 (corrected): the number of records emitted equals the number of
columns, excluding `id` and `sku`, whose value is non-empty and already equal
to its trimmed form. -/
theorem c3_record_count (row : Row) (productId : Int) :
    (transformToMetafields row productId).length = trimmedEligibleCount row := by
  unfold transformToMetafields trimmedEligibleCount
  rw [List.length_map]
  have hpred : (fun e : String × String => allowsHeader e.1 && allowsValue e.2) =
      (fun e : String × String =>
        !(e.1 == "id") && !(e.1 == "sku") && (jsTrim e.2 == e.2) && (e.2 != "")) := by
    funext e
    obtain ⟨k, v⟩ := e
    rw [Bool.eq_iff_iff]
    simp [allowsHeader, allowsValue, skipColumns, List.contains]
    tauto
  rw [hpred]

/-! ## Claim C4 -/

/-- Claim C4 (code_bug): with every filter option absent and the `all`
override set, the delete command still takes the configuration-error exit
before any fetch: the validation at delete-metafields.ts lines 83–92 never
consults `options.all` (and the CLI never even registers an `--all` flag,
although the README and `DeleteOptions` in types.ts document it). -/
theorem c4_all_override_ignored :
    deleteCriteriaMissing
      { accessToken := some "token", storeHash := some "hash", dryRun := false,
        key := none, «namespace» := none, productId := none,
        batchSize := none, limit := none, all := some true } = true ∧
    deleteMain
      { accessToken := some "token", storeHash := some "hash", dryRun := false,
        key := none, «namespace» := none, productId := none,
        batchSize := none, limit := none, all := some true }
      [] (fun _ => true) = some deleteExit ∧
    deleteExit.fetchPerformed = false ∧ deleteExit.configError = true := by
  decide

/-! ## Chunk loop lemmas -/

lemma chunkLoop_of_ge {α : Type} (l : List α) (size i : Int) (fuel : Nat)
    (h : ¬ i < (l.length : Int)) : chunkLoop l size i fuel = some [] := by
  cases fuel with
  | zero => simp only [chunkLoop, if_neg h]
  | succ n => simp only [chunkLoop, if_neg h]

lemma chunkLoop_nonpos_none {α : Type} (l : List α) (size : Int) (hsize : size ≤ 0)
    (hl : l ≠ []) : ∀ (fuel : Nat) (i : Int), i ≤ 0 → chunkLoop l size i fuel = none := by
  have hlen : (0 : Int) < (l.length : Int) := by
    exact_mod_cast List.length_pos.mpr hl
  intro fuel
  induction fuel with
  | zero =>
    intro i hi
    simp only [chunkLoop]
    rw [if_pos (lt_of_le_of_lt hi hlen)]
  | succ n ih =>
    intro i hi
    simp only [chunkLoop]
    rw [if_pos (lt_of_le_of_lt hi hlen), ih (i + size) (by omega)]
    rfl

lemma take_min_length {α : Type} (l : List α) (n : Nat) :
    l.take (min n l.length) = l.take n := by
  rcases Nat.le_total n l.length with h | h
  · rw [min_eq_left h]
  · rw [min_eq_right h, List.take_length, List.take_of_length_le h]

lemma drop_min_length {α : Type} (l : List α) (n : Nat) :
    l.drop (min n l.length) = l.drop n := by
  rcases Nat.le_total n l.length with h | h
  · rw [min_eq_left h]
  · rw [min_eq_right h, List.drop_length, List.drop_of_length_le h]

lemma jsSlice_nat {α : Type} (l : List α) (j n : Nat) :
    jsSlice l (j : Int) ((j : Int) + (n : Int)) = (l.drop j).take n := by
  have hj : ¬ ((j : Int) < 0) := by omega
  have hjn : ¬ ((j : Int) + (n : Int) < 0) := by omega
  simp only [jsSlice, if_neg hj, if_neg hjn]
  have h1 : (min ((j : Int) + (n : Int)) (l.length : Int)).toNat = min (j + n) l.length := by
    omega
  have h2 : (min (j : Int) (l.length : Int)).toNat = min j l.length := by
    omega
  rw [h1, h2, take_min_length]
  rcases Nat.le_total j l.length with hle | hle
  · rw [min_eq_left hle, List.take_drop]
  · rw [min_eq_right hle, List.take_of_length_le (le_trans hle (Nat.le_add_right j n)),
      List.drop_length, List.drop_of_length_le hle, List.take_nil]

lemma chunkLoop_join {α : Type} (l : List α) (size : Nat) :
    ∀ (fuel : Nat) (j : Nat) (cs : List (List α)),
      chunkLoop l (size : Int) (j : Int) fuel = some cs → cs.flatten = l.drop j := by
  intro fuel
  induction fuel with
  | zero =>
    intro j cs h
    by_cases hj : (j : Int) < (l.length : Int)
    · simp only [chunkLoop, if_pos hj] at h
      exact absurd h (by simp)
    · simp only [chunkLoop, if_neg hj] at h
      obtain rfl : cs = [] := (Option.some.inj h).symm
      rw [List.flatten_nil, List.drop_of_length_le (by omega)]
  | succ n ih =>
    intro j cs h
    by_cases hj : (j : Int) < (l.length : Int)
    · simp only [chunkLoop, if_pos hj] at h
      cases hrec : chunkLoop l (size : Int) ((j : Int) + (size : Int)) n with
      | none => rw [hrec] at h; simp at h
      | some cs' =>
        rw [hrec] at h
        simp only [Option.map_some'] at h
        obtain rfl : cs = jsSlice l (j : Int) ((j : Int) + (size : Int)) :: cs' :=
          (Option.some.inj h).symm
        have hcast : (j : Int) + (size : Int) = ((j + size : Nat) : Int) := by push_cast; ring
        rw [hcast] at hrec
        have hjoin := ih (j + size) cs' hrec
        rw [List.flatten_cons, jsSlice_nat l j size, hjoin, ← List.drop_drop]
        exact List.take_append_drop size (l.drop j)
    · simp only [chunkLoop, if_neg hj] at h
      obtain rfl : cs = [] := (Option.some.inj h).symm
      rw [List.flatten_nil, List.drop_of_length_le (by omega)]

lemma chunkLoop_lengths {α : Type} (l : List α) (size : Nat) (hsize : 0 < size) :
    ∀ (fuel : Nat) (j : Nat) (cs : List (List α)),
      chunkLoop l (size : Int) (j : Int) fuel = some cs →
      (∀ c ∈ cs.dropLast, c.length = size) ∧ ∀ c ∈ cs, 1 ≤ c.length ∧ c.length ≤ size := by
  intro fuel
  induction fuel with
  | zero =>
    intro j cs h
    by_cases hj : (j : Int) < (l.length : Int)
    · simp only [chunkLoop, if_pos hj] at h
      exact absurd h (by simp)
    · simp only [chunkLoop, if_neg hj] at h
      obtain rfl : cs = [] := (Option.some.inj h).symm
      exact ⟨by simp, by simp⟩
  | succ n ih =>
    intro j cs h
    by_cases hj : (j : Int) < (l.length : Int)
    · have hjlen : j < l.length := by exact_mod_cast hj
      simp only [chunkLoop, if_pos hj] at h
      cases hrec : chunkLoop l (size : Int) ((j : Int) + (size : Int)) n with
      | none => rw [hrec] at h; simp at h
      | some cs' =>
        rw [hrec] at h
        simp only [Option.map_some'] at h
        obtain rfl : cs = jsSlice l (j : Int) ((j : Int) + (size : Int)) :: cs' :=
          (Option.some.inj h).symm
        have hcast : (j : Int) + (size : Int) = ((j + size : Nat) : Int) := by push_cast; ring
        rw [hcast] at hrec
        obtain ⟨ih1, ih2⟩ := ih (j + size) cs' hrec
        have hb : (jsSlice l (j : Int) ((j : Int) + (size : Int))).length =
            min size (l.length - j) := by
          rw [jsSlice_nat l j size, List.length_take, List.length_drop]
        constructor
        · intro c hc
          cases cs' with
          | nil => simp at hc
          | cons c0 cs'' =>
            rw [List.dropLast_cons₂] at hc
            rcases List.mem_cons.mp hc with rfl | hc'
            · have hlt : ((j + size : Nat) : Int) < (l.length : Int) := by
                by_contra hge
                rw [chunkLoop_of_ge l _ _ n hge] at hrec
                exact absurd (Option.some.inj hrec) (by simp)
              have hsz : j + size < l.length := by exact_mod_cast hlt
              rw [hb]
              omega
            · exact ih1 c hc'
        · intro c hc
          rcases List.mem_cons.mp hc with rfl | hc'
          · rw [hb]
            omega
          · exact ih2 c hc'
    · simp only [chunkLoop, if_neg hj] at h
      obtain rfl : cs = [] := (Option.some.inj h).symm
      exact ⟨by simp, by simp⟩

lemma chunkLoop_dom {α : Type} (l : List α) (size : Nat) (hsize : 0 < size) :
    ∀ (fuel : Nat) (j : Nat), l.length - j ≤ fuel →
      ∃ cs, chunkLoop l (size : Int) (j : Int) fuel = some cs := by
  intro fuel
  induction fuel with
  | zero =>
    intro j hfuel
    have hj : ¬ ((j : Int) < (l.length : Int)) := by omega
    exact ⟨[], chunkLoop_of_ge l _ _ 0 hj⟩
  | succ n ih =>
    intro j hfuel
    by_cases hj : (j : Int) < (l.length : Int)
    · have hjlen : j < l.length := by exact_mod_cast hj
      obtain ⟨cs', hcs'⟩ := ih (j + size) (by omega)
      refine ⟨jsSlice l (j : Int) ((j : Int) + (size : Int)) :: cs', ?_⟩
      simp only [chunkLoop, if_pos hj]
      have hcast : (j : Int) + (size : Int) = ((j + size : Nat) : Int) := by push_cast; ring
      rw [hcast, hcs']
      rfl
    · exact ⟨[], chunkLoop_of_ge l _ _ _ hj⟩

/-! ## Claim C2 -/

/-- Claim C2 counterexample: `chunk([()], 0)` does not raise a configuration
error and does not terminate; whatever iteration bound the model is given, the
loop is still running (`i` never advances past `0 < length`). -/
theorem c2_counterexample : chunkDiverges [()] 0 ∧ chunk [()] 0 = none := by
  constructor
  · intro fuel
    exact chunkLoop_nonpos_none [()] 0 le_rfl (by decide) fuel 0 le_rfl
  · exact chunkLoop_nonpos_none [()] 0 le_rfl (by decide) 1 0 le_rfl

/-- Claim C2 (corrected): `chunk` performs no validation of its size argument;
for every non-positive size it raises no error, and on every non-empty
sequence its loop makes no progress and never terminates, while on the empty
sequence it terminates immediately with no groups. -/
theorem c2_nonpos_size_diverges {α : Type} (l : List α) (size : Int)
    (hsize : size ≤ 0) (hl : l ≠ []) :
    chunkDiverges l size ∧ chunk ([] : List α) size = some [] := by
  constructor
  · intro fuel
    exact chunkLoop_nonpos_none l size hsize hl fuel 0 le_rfl
  · rfl

/-- Witness for the amended claim C2 at the list `[1, 2]` and size `-3`. -/
theorem c2_witness : chunkDiverges [1, 2] (-3) ∧ chunk ([] : List Nat) (-3) = some [] :=
  c2_nonpos_size_diverges [1, 2] (-3) (by decide) (by decide)

/-! ## Claim C9 -/

/-- Claim C9 (confirmed): for every sequence and every size N ≥ 1, `chunk`
terminates and its groups concatenate back to the input in order (nothing
dropped, duplicated or reordered); every group except possibly the last has
length exactly N, and every group, the last included, has length between 1
and N. -/
theorem c9_chunk_partition {α : Type} (l : List α) (N : Nat) (hN : 1 ≤ N) :
    ∃ cs, chunk l (N : Int) = some cs ∧ cs.flatten = l ∧
      (∀ c ∈ cs.dropLast, c.length = N) ∧ ∀ c ∈ cs, 1 ≤ c.length ∧ c.length ≤ N := by
  have h0 : ((0 : Nat) : Int) = (0 : Int) := by norm_num
  obtain ⟨cs, hcs⟩ := chunkLoop_dom l N hN l.length 0 (by omega)
  rw [h0] at hcs
  refine ⟨cs, hcs, ?_, ?_⟩
  · have := chunkLoop_join l N l.length 0 cs (by rw [h0]; exact hcs)
    simpa using this
  · exact chunkLoop_lengths l N hN l.length 0 cs (by rw [h0]; exact hcs)

/-- Witness for claim C9 at the list `[1, 2, 3]` and size `2`, together with
the concrete evaluation of the chunking. -/
theorem c9_witness :
    (∃ cs, chunk [1, 2, 3] ((2 : Nat) : Int) = some cs ∧ cs.flatten = [1, 2, 3] ∧
      (∀ c ∈ cs.dropLast, c.length = 2) ∧ ∀ c ∈ cs, 1 ≤ c.length ∧ c.length ≤ 2) ∧
    chunk [1, 2, 3] (2 : Int) = some [[1, 2], [3]] :=
  ⟨c9_chunk_partition [1, 2, 3] 2 (by decide), by decide⟩

/-! ## Claim C5 -/

lemma lexLe_total : ∀ as bs : List Char, lexLe as bs = true ∨ lexLe bs as = true := by
  intro as
  induction as with
  | nil => intro bs; left; rfl
  | cons a as ih =>
    intro bs
    cases bs with
    | nil => right; rfl
    | cons b bs =>
      simp only [lexLe]
      rcases Nat.lt_trichotomy a.toNat b.toNat with h | h | h
      · left
        rw [if_pos h]
      · rw [if_neg (by omega), if_neg (by omega), if_neg (by omega), if_neg (by omega)]
        exact ih bs
      · right
        rw [if_pos h]

lemma lexLe_trans : ∀ as bs cs : List Char,
    lexLe as bs = true → lexLe bs cs = true → lexLe as cs = true := by
  intro as
  induction as with
  | nil => intro bs cs _ _; rfl
  | cons a as ih =>
    intro bs cs hab hbc
    cases bs with
    | nil => simp [lexLe] at hab
    | cons b bs =>
      cases cs with
      | nil => simp [lexLe] at hbc
      | cons c cs =>
        simp only [lexLe] at hab hbc ⊢
        rcases Nat.lt_trichotomy a.toNat b.toNat with h1 | h1 | h1
        · rcases Nat.lt_trichotomy b.toNat c.toNat with h2 | h2 | h2
          · rw [if_pos (by omega)]
          · rw [if_pos (by omega)]
          · rw [if_neg (by omega), if_pos h2] at hbc
            exact Bool.noConfusion hbc
        · rcases Nat.lt_trichotomy b.toNat c.toNat with h2 | h2 | h2
          · rw [if_pos (by omega)]
          · rw [if_neg (by omega), if_neg (by omega)] at hab
            rw [if_neg (by omega), if_neg (by omega)] at hbc
            rw [if_neg (by omega), if_neg (by omega)]
            exact ih bs cs hab hbc
          · rw [if_neg (by omega), if_pos h2] at hbc
            exact Bool.noConfusion hbc
        · rw [if_neg (by omega), if_pos h1] at hab
          exact Bool.noConfusion hab

instance strLeIsTotal : IsTotal String (fun a b => strLe a b = true) :=
  ⟨fun a b => lexLe_total a.data b.data⟩

instance strLeIsTrans : IsTrans String (fun a b => strLe a b = true) :=
  ⟨fun a b c => lexLe_trans a.data b.data c.data⟩

lemma jsSliceToEnd_nat {α : Type} (l : List α) (j : Nat) :
    jsSliceToEnd l (j : Int) = l.drop j := by
  have hj : ¬ ((j : Int) < 0) := by omega
  have hlen : ¬ ((l.length : Int) < 0) := by omega
  simp only [jsSliceToEnd, jsSlice, if_neg hj, if_neg hlen]
  have h1 : (min (l.length : Int) (l.length : Int)).toNat = l.length := by omega
  have h2 : (min (j : Int) (l.length : Int)).toNat = min j l.length := by omega
  rw [h1, h2, List.take_length, drop_min_length]

lemma jsOrDefault_natCast (j : Nat) : jsOrDefault (some (j : Int)) 0 = (j : Int) := by
  simp only [jsOrDefault]
  split <;> omega

/-- Claim C5 counterexample: a limit of 0 is falsy in the slice-bound ternary,
so the pipeline selects every remaining file rather than zero files. -/
theorem c5_counterexample :
    selectCsvFiles ["b.csv", "a.csv", "notes.txt"] (some 0) (some 0) = ["a.csv", "b.csv"] := by
  decide

/-- Claim C5 (corrected): the create pipeline keeps the files ending in
`.csv`, sorts them lexicographically (a sorted permutation of the filtered
names), then drops the first `skip` of them; when `limit ≥ 1` it takes at
most `limit` of the remainder, but a `limit` of `0` is treated as absent, so
every remaining file is processed. -/
theorem c5_file_selection (files : List String) (skip limitN : Nat) :
    (1 ≤ limitN →
      selectCsvFiles files (some (skip : Int)) (some (limitN : Int)) =
        ((sortFiles (files.filter (fun f => jsEndsWith f ".csv"))).drop skip).take limitN) ∧
    selectCsvFiles files (some (skip : Int)) (some (0 : Int)) =
      (sortFiles (files.filter (fun f => jsEndsWith f ".csv"))).drop skip ∧
    List.Sorted (fun a b => strLe a b = true)
      (sortFiles (files.filter (fun f => jsEndsWith f ".csv"))) ∧
    (sortFiles (files.filter (fun f => jsEndsWith f ".csv"))).Perm
      (files.filter (fun f => jsEndsWith f ".csv")) := by
  refine ⟨?_, ?_, ?_, ?_⟩
  · intro hlim
    have hne : ¬ ((limitN : Int) = 0) := by omega
    simp only [selectCsvFiles, if_neg hne, jsOrDefault_natCast]
    exact jsSlice_nat _ skip limitN
  · simp only [selectCsvFiles, if_pos rfl, jsOrDefault_natCast]
    exact jsSliceToEnd_nat _ skip
  · exact List.sorted_insertionSort _ _
  · exact List.perm_insertionSort _ _

/-- Witness for the amended claim C5 at a concrete directory listing with
skip 1 and limits 1 and 0. -/
theorem c5_witness :
    selectCsvFiles ["b.csv", "a.csv"] (some 1) (some 1) =
      ((sortFiles (["b.csv", "a.csv"].filter (fun f => jsEndsWith f ".csv"))).drop 1).take 1 ∧
    selectCsvFiles ["b.csv", "a.csv"] (some 1) (some 0) =
      (sortFiles (["b.csv", "a.csv"].filter (fun f => jsEndsWith f ".csv"))).drop 1 :=
  ⟨(c5_file_selection ["b.csv", "a.csv"] 1 1).1 (by decide),
   (c5_file_selection ["b.csv", "a.csv"] 1 1).2.1⟩

/-! ## Claim C6 -/

/-- Claim C6 counterexample: the id `"-5"` does not denote a valid positive
integer, yet the row is not skipped: the pipeline transforms it with product
id −5, counts it, and submits its record. -/
theorem c6_counterexample :
    processRow ⟨false, true, none, none, some 50⟩ (fun _ => true) initState
        [("id", "-5"), ("a.b", "x")] =
      some ⟨1, 1, 1, 0,
        [[⟨"product", -5, "a", "b", "x", "B for product_-5", "write_and_sf_access"⟩]]⟩ := by
  decide

/-- Claim C6 (corrected): a row is skipped entirely — no record, no error
count, processing continues with the next row — exactly when `parseInt` of
its `id` cell is falsy, i.e. yields `NaN` or `0`; rows whose id parses to any
non-zero integer (negative ones included) are processed. -/
theorem c6_falsy_id_skipped (opts : CreateOptions) (ok : Nat → Bool) (st : CState)
    (row : Row) (rows : List Row)
    (h : (jsLookup row "id").bind jsParseInt = none ∨
      (jsLookup row "id").bind jsParseInt = some 0) :
    processRows opts ok st (row :: rows) = processRows opts ok st rows := by
  have hrow : processRow opts ok st row = some st := by
    rcases h with h | h <;> simp [processRow, h]
  simp only [processRows, hrow]

/-- Witness for the amended claim C6: a row with id `"abc"` contributes
nothing to the run. -/
theorem c6_witness :
    processRows ⟨false, true, none, none, some 50⟩ (fun _ => true) initState
        [[("id", "abc"), ("a.b", "x")]] =
      processRows ⟨false, true, none, none, some 50⟩ (fun _ => true) initState [] :=
  c6_falsy_id_skipped _ _ _ _ _ (Or.inl (by decide))

/-! ## Claim C7 -/

lemma createBatchLoop_dom (ok : Nat → Bool) (mfs : List Metafield) (size : Nat)
    (hsize : 0 < size) :
    ∀ (fuel : Nat) (j callIdx : Nat), mfs.length - j ≤ fuel →
      (createBatchLoop ok mfs (size : Int) (j : Int) callIdx fuel).isSome := by
  intro fuel
  induction fuel with
  | zero =>
    intro j callIdx hfuel
    have hj : ¬ ((j : Int) < (mfs.length : Int)) := by omega
    simp only [createBatchLoop, if_neg hj, Option.isSome_some]
  | succ n ih =>
    intro j callIdx hfuel
    by_cases hj : (j : Int) < (mfs.length : Int)
    · have hjlen : j < mfs.length := by exact_mod_cast hj
      simp only [createBatchLoop, if_pos hj]
      by_cases hok : ok callIdx = true
      · rw [if_pos hok]
        have hcast : (j : Int) + (size : Int) = ((j + size : Nat) : Int) := by push_cast; ring
        rw [hcast]
        have hrec := ih (j + size) (callIdx + 1) (by omega)
        cases hr : createBatchLoop ok mfs (size : Int) ((j + size : Nat) : Int) (callIdx + 1) n with
        | none => rw [hr] at hrec; simp at hrec
        | some r =>
          rcases r with ⟨cs, s, t⟩
          simp
      · rw [if_neg hok]
        simp
    · simp only [createBatchLoop, if_neg hj, Option.isSome_some]

lemma createBatchLoop_first_fail (ok : Nat → Bool) (mfs : List Metafield) (size : Int)
    (callIdx : Nat) (hfail : ok callIdx = false) (hne : mfs ≠ []) :
    ∀ fuel : Nat, 1 ≤ fuel →
      createBatchLoop ok mfs size 0 callIdx fuel = some ([jsSlice mfs 0 size], 0, true) := by
  intro fuel hfuel
  have hlen : (0 : Int) < (mfs.length : Int) := by
    exact_mod_cast List.length_pos.mpr hne
  cases fuel with
  | zero => omega
  | succ n =>
    simp only [createBatchLoop, if_pos hlen]
    rw [if_neg (by simp [hfail]), zero_add]

lemma processRow_total (opts : CreateOptions) (ok : Nat → Bool) (st : CState) (row : Row)
    (hbs : 1 ≤ jsOrDefault opts.batchSize 50) :
    ∃ st', processRow opts ok st row = some st' ∧
      st'.totalProducts = st.totalProducts + (if rowHasTruthyId row then 1 else 0) := by
  cases hid : (jsLookup row "id").bind jsParseInt with
  | none =>
    have hrt : rowHasTruthyId row = false := by
      unfold rowHasTruthyId
      rw [hid]
    refine ⟨st, ?_, by rw [hrt]; simp⟩
    simp only [processRow, hid]
  | some p =>
    rcases eq_or_ne p 0 with rfl | hp
    · have hrt : rowHasTruthyId row = false := by
        unfold rowHasTruthyId
        rw [hid]
        rfl
      refine ⟨st, ?_, by rw [hrt]; simp⟩
      simp [processRow, hid]
    · have hrt : rowHasTruthyId row = true := by
        unfold rowHasTruthyId
        rw [hid]
        simp [hp]
      rw [hrt]
      simp only [processRow, hid, if_neg hp]
      by_cases hcond :
          (!opts.dryRun && opts.hasClient &&
            decide (0 < (transformToMetafields row p).length)) = true
      · rw [if_pos hcond]
        have hnn : (0 : Int) ≤ jsOrDefault opts.batchSize 50 := by omega
        have hszcast : ((jsOrDefault opts.batchSize 50).toNat : Int) =
            jsOrDefault opts.batchSize 50 := Int.toNat_of_nonneg hnn
        have hdm := createBatchLoop_dom ok (transformToMetafields row p)
          (jsOrDefault opts.batchSize 50).toNat (by omega)
          (transformToMetafields row p).length 0 st.calls.length (by omega)
        rw [hszcast, Nat.cast_zero] at hdm
        rw [Option.isSome_iff_exists] at hdm
        obtain ⟨r, hr⟩ := hdm
        rw [hr]
        rcases r with ⟨cs, s, t⟩
        exact ⟨_, rfl, by simp⟩
      · rw [if_neg hcond]
        exact ⟨_, rfl, by simp⟩

lemma processRows_total (opts : CreateOptions) (ok : Nat → Bool)
    (hbs : 1 ≤ jsOrDefault opts.batchSize 50) :
    ∀ (rows : List Row) (st : CState),
      ∃ st', processRows opts ok st rows = some st' ∧
        st'.totalProducts = st.totalProducts + countValidRows rows := by
  intro rows
  induction rows with
  | nil =>
    intro st
    exact ⟨st, rfl, by simp [countValidRows]⟩
  | cons r rs ih =>
    intro st
    obtain ⟨st1, h1, e1⟩ := processRow_total opts ok st r hbs
    obtain ⟨st2, h2, e2⟩ := ih st1
    refine ⟨st2, ?_, ?_⟩
    · simp only [processRows, h1]
      exact h2
    · rw [e2, e1]
      simp only [countValidRows, List.filter_cons]
      by_cases hr : rowHasTruthyId r = true <;> (simp [hr]; try omega)

/-- Claim C7 counterexample: live run, batch size 1, a row with two metafield
columns (hence two batches) and a first submission call that fails.  The
create pipeline catches the failure outside its per-row batch loop, so only
the first batch is ever posted: the second batch of the same row is never
submitted, contradicting the claim. -/
theorem c7_counterexample :
    processRow ⟨false, true, none, none, some 1⟩ (fun _ => false) initState
        [("id", "5"), ("a.b", "x"), ("c.d", "y")] =
      some ⟨1, 2, 0, 1,
        [[⟨"product", 5, "a", "b", "x", "B for product_5", "write_and_sf_access"⟩]]⟩ := by
  decide

/-- Claim C7 (corrected): submission failures are caught, counted and logged
and never abort the run, but the catch scope differs between the pipelines.
The delete pipeline catches per batch: every batch gets its delete call in
order whatever happened before, and successes plus failures account for every
metafield.  The create pipeline catches around the whole per-row batch loop:
a failing call is counted once, the remaining batches of that same row are
skipped, and processing continues with the following rows (every row is still
visited, whatever the outcomes of the network calls). -/
theorem c7_failure_isolation :
    (∀ (ok : Nat → Bool) (batches : List (List ProductMetafield)) (idx : Nat),
        (deleteBatchesRun ok batches idx).1 =
          batches.map (fun b => b.map (fun m => m.id)) ∧
        (deleteBatchesRun ok batches idx).2.1 + (deleteBatchesRun ok batches idx).2.2 =
          (batches.map List.length).sum) ∧
    (∀ (opts : CreateOptions) (ok : Nat → Bool) (st : CState) (row : Row) (p : Int)
        (mfs : List Metafield),
        (jsLookup row "id").bind jsParseInt = some p → p ≠ 0 →
        transformToMetafields row p = mfs → mfs ≠ [] →
        opts.dryRun = false → opts.hasClient = true →
        ok st.calls.length = false →
        processRow opts ok st row =
          some { st with
            totalProducts := st.totalProducts + 1
            totalMetafields := st.totalMetafields + mfs.length
            errorCount := st.errorCount + 1
            calls := st.calls ++ [jsSlice mfs 0 (jsOrDefault opts.batchSize 50)] }) ∧
    (∀ (opts : CreateOptions) (ok : Nat → Bool) (st : CState) (rows : List Row),
        1 ≤ jsOrDefault opts.batchSize 50 →
        ∃ st', processRows opts ok st rows = some st' ∧
          st'.totalProducts = st.totalProducts + countValidRows rows) := by
  refine ⟨?_, ?_, ?_⟩
  · intro ok batches idx
    induction batches generalizing idx with
    | nil => exact ⟨rfl, rfl⟩
    | cons b bs ih =>
      obtain ⟨ih1, ih2⟩ := ih (idx + 1)
      constructor
      · simp only [deleteBatchesRun, List.map_cons]
        rw [ih1]
      · simp only [deleteBatchesRun, List.map_cons, List.sum_cons]
        by_cases hok : ok idx = true <;> simp [hok] <;> omega
  · intro opts ok st row p mfs hid hp hmf hne hdry hcl hfail
    simp only [processRow, hid, if_neg hp]
    rw [hmf]
    have hlenpos : 0 < mfs.length := List.length_pos.mpr hne
    have hcond : (!opts.dryRun && opts.hasClient && decide (0 < mfs.length)) = true := by
      rw [hdry, hcl]
      simp [hlenpos]
    rw [if_pos hcond,
      createBatchLoop_first_fail ok mfs _ st.calls.length hfail hne mfs.length (by omega)]
    simp
  · intro opts ok st rows hbs
    exact processRows_total opts ok hbs rows st

/-- Witness for the amended claim C7: its three parts applied to concrete
inputs — a two-batch delete run whose first call fails, a create row whose
single submission fails, and a one-row create run. -/
theorem c7_witness :
    ((deleteBatchesRun (fun i => i != 0) [[⟨1, 10, "k", "n", "v"⟩], [⟨2, 11, "k", "n", "v"⟩]] 0).1 =
        ([[⟨1, 10, "k", "n", "v"⟩], [⟨2, 11, "k", "n", "v"⟩]] :
            List (List ProductMetafield)).map (fun b => b.map (fun m => m.id)) ∧
      (deleteBatchesRun (fun i => i != 0)
            [[⟨1, 10, "k", "n", "v"⟩], [⟨2, 11, "k", "n", "v"⟩]] 0).2.1 +
          (deleteBatchesRun (fun i => i != 0)
            [[⟨1, 10, "k", "n", "v"⟩], [⟨2, 11, "k", "n", "v"⟩]] 0).2.2 =
        (([[⟨1, 10, "k", "n", "v"⟩], [⟨2, 11, "k", "n", "v"⟩]] :
            List (List ProductMetafield)).map List.length).sum) ∧
    processRow ⟨false, true, none, none, some 1⟩ (fun _ => false) initState
        [("id", "7"), ("a.b", "x")] =
      some { initState with
        totalProducts := initState.totalProducts + 1
        totalMetafields := initState.totalMetafields +
          [(⟨"product", 7, "a", "b", "x", "B for product_7",
            "write_and_sf_access"⟩ : Metafield)].length
        errorCount := initState.errorCount + 1
        calls := initState.calls ++
          [jsSlice [(⟨"product", 7, "a", "b", "x", "B for product_7",
            "write_and_sf_access"⟩ : Metafield)] 0 (jsOrDefault (some 1) 50)] } ∧
    ∃ st', processRows ⟨false, true, none, none, some 50⟩ (fun _ => true) initState
        [[("id", "3"), ("a.b", "x")]] = some st' ∧
      st'.totalProducts = initState.totalProducts +
        countValidRows [[("id", "3"), ("a.b", "x")]] :=
  ⟨c7_failure_isolation.1 (fun i => i != 0)
      [[⟨1, 10, "k", "n", "v"⟩], [⟨2, 11, "k", "n", "v"⟩]] 0,
   c7_failure_isolation.2.1 ⟨false, true, none, none, some 1⟩ (fun _ => false) initState
      [("id", "7"), ("a.b", "x")] 7
      [⟨"product", 7, "a", "b", "x", "B for product_7", "write_and_sf_access"⟩]
      (by decide) (by decide) (by decide) (by decide) rfl rfl (by decide),
   c7_failure_isolation.2.2 ⟨false, true, none, none, some 50⟩ (fun _ => true) initState
      [[("id", "3"), ("a.b", "x")]] (by decide)⟩

/-! ## Claim C8 -/

lemma processRow_dry (opts : CreateOptions) (hdry : opts.dryRun = true) (ok : Nat → Bool)
    (st : CState) (row : Row) :
    ∃ st', processRow opts ok st row = some st' ∧ st'.calls = st.calls := by
  cases hid : (jsLookup row "id").bind jsParseInt with
  | none => exact ⟨st, by simp [processRow, hid], rfl⟩
  | some p =>
    rcases eq_or_ne p 0 with rfl | hp
    · exact ⟨st, by simp [processRow, hid], rfl⟩
    · have hcond : ¬ ((!opts.dryRun && opts.hasClient &&
          decide (0 < (transformToMetafields row p).length)) = true) := by
        rw [hdry]
        simp
      refine ⟨{ st with
          totalProducts := st.totalProducts + 1
          totalMetafields := st.totalMetafields + (transformToMetafields row p).length },
        ?_, rfl⟩
      simp only [processRow, hid, if_neg hp, if_neg hcond]

lemma processRows_dry (opts : CreateOptions) (hdry : opts.dryRun = true) (ok : Nat → Bool) :
    ∀ (rows : List Row) (st : CState),
      ∃ st', processRows opts ok st rows = some st' ∧ st'.calls = st.calls := by
  intro rows
  induction rows with
  | nil => intro st; exact ⟨st, rfl, rfl⟩
  | cons r rs ih =>
    intro st
    obtain ⟨st1, h1, e1⟩ := processRow_dry opts hdry ok st r
    obtain ⟨st2, h2, e2⟩ := ih st1
    refine ⟨st2, ?_, by rw [e2, e1]⟩
    simp only [processRows, h1]
    exact h2

lemma processFiles_dry (fs : FileSys) (opts : CreateOptions) (hdry : opts.dryRun = true)
    (ok : Nat → Bool) :
    ∀ (names : List String) (st : CState),
      ∃ st', processFiles fs opts ok st names = some st' ∧ st'.calls = st.calls := by
  intro names
  induction names with
  | nil => intro st; exact ⟨st, rfl, rfl⟩
  | cons f rest ih =>
    intro st
    obtain ⟨st1, h1, e1⟩ := processRows_dry opts hdry ok (readRows fs f) st
    obtain ⟨st2, h2, e2⟩ := ih st1
    refine ⟨st2, ?_, by rw [e2, e1]⟩
    simp only [processFiles, h1]
    exact h2

/-- Claim C8 (confirmed): with the dry-run flag set, neither pipeline issues a
mutating call — the create run completes without a single create submission
and the delete run completes (or config-exits) without a single delete call. -/
theorem c8_dry_run_no_mutations (fs : FileSys) (opts : CreateOptions) (ok : Nat → Bool)
    (o : DeleteOptions) (fetched : List ProductMetafield) (okd : Nat → Bool)
    (hc : opts.dryRun = true) (hd : o.dryRun = true) :
    (∃ st, processAllFiles fs opts ok = some st ∧ st.calls = []) ∧
    ∃ run, deleteMain o fetched okd = some run ∧ run.deleteCalls = [] := by
  constructor
  · obtain ⟨st, h1, h2⟩ := processFiles_dry fs opts hc ok
      (selectCsvFiles (fileNames fs) opts.skip opts.limit) initState
    exact ⟨st, h1, by rw [h2]; rfl⟩
  · unfold deleteMain
    rw [hd]
    simp only [Bool.not_true, Bool.false_and, Bool.false_eq_true, if_false]
    split
    · exact ⟨deleteExit, rfl, rfl⟩
    · split
      · exact ⟨deleteExit, rfl, rfl⟩
      · rw [if_pos trivial]
        exact ⟨⟨false, true, [], 0, 0⟩, rfl, rfl⟩

/-- Witness for claim C8 at a concrete dry-run configuration of each
pipeline. -/
theorem c8_witness :
    (∃ st, processAllFiles ⟨[("a.csv", [[("id", "1"), ("a.b", "x")]])]⟩
        ⟨true, true, none, none, some 50⟩ (fun _ => true) = some st ∧ st.calls = []) ∧
    ∃ run, deleteMain ⟨some "t", some "h", true, some ["k"], none, none, none, none, none⟩
        [] (fun _ => true) = some run ∧ run.deleteCalls = [] :=
  c8_dry_run_no_mutations _ _ _ _ _ _ rfl rfl
